import Mathlib

/-!
Verification of the disk-image extraction engine (`src/collectors/tsk_collector.py`).

The engine drives three external CLI tools (partition lister, directory lister,
content extractor).  We embed the engine shallowly: the external world is an
oracle (`Tool`) whose calls may fail (`Except Unit`), the output directory is a
finite map from file name to byte content, and every Python string operation
used by the code (`in`, `split`, `strip`, `count`, `replace`, `os.path.dirname`,
`os.path.splitext`, `re.search` for the two fixed regexes, ...) is modelled by
an executable function on `List Char` with the same semantics.  All recursion is
structural (fuel-based where the source loops are unbounded), so every
definition evaluates by kernel reduction on concrete inputs.
-/

namespace Tsk

/-! ### Python string primitives -/

/-- Python `sub in s` (substring containment, case-sensitive). -/
def pyInAux (sub : List Char) : List Char → Bool
  | [] => sub.isEmpty
  | c :: rest => sub.isPrefixOf (c :: rest) || pyInAux sub rest

/-- Python `sub in s` on strings. -/
def pyInS (sub s : String) : Bool := pyInAux sub.data s.data

/-- Python `s.count(sub)`: number of non-overlapping occurrences, scanning left
to right; fuel-based (`fuel = s.length` suffices). -/
def countSubAux (sub : List Char) : Nat → List Char → Nat
  | 0, _ => 0
  | _ + 1, [] => 0
  | f + 1, c :: rest =>
    if sub.isPrefixOf (c :: rest) then 1 + countSubAux sub f ((c :: rest).drop sub.length)
    else countSubAux sub f rest

/-- Python `s.count(sub)` on strings (for non-empty `sub`). -/
def pyCountS (s sub : String) : Nat := countSubAux sub.data s.data.length s.data

/-- Python `s.split(sub)[0]`: the prefix of `s` before the first occurrence of
`sub` (all of `s` when `sub` does not occur). -/
def takeUntilSub (sub : List Char) : List Char → List Char
  | [] => []
  | c :: rest => if sub.isPrefixOf (c :: rest) then [] else c :: takeUntilSub sub rest

/-- `dir_path.split(sep)[0]` on strings. -/
def beforeSub (s sub : String) : String := ⟨takeUntilSub sub.data s.data⟩

/-- Python `s.replace(sub, repl)`: replace all non-overlapping occurrences,
left to right; fuel-based. -/
def replaceAux (sub repl : List Char) : Nat → List Char → List Char
  | 0, s => s
  | _ + 1, [] => []
  | f + 1, c :: rest =>
    if sub.isPrefixOf (c :: rest) then repl ++ replaceAux sub repl f ((c :: rest).drop sub.length)
    else c :: replaceAux sub repl f rest

/-- Python `s.replace(sub, repl)` on strings. -/
def pyReplaceS (s sub repl : String) : String := ⟨replaceAux sub.data repl.data s.data.length s.data⟩

/-- Python `s.strip()` (ASCII whitespace). -/
def stripWS (l : List Char) : List Char :=
  ((l.dropWhile Char.isWhitespace).reverse.dropWhile Char.isWhitespace).reverse

/-- Python `s.strip(c)` for a single strip character. -/
def stripChar (c : Char) (l : List Char) : List Char :=
  ((l.dropWhile (fun x => x == c)).reverse.dropWhile (fun x => x == c)).reverse

/-- Split a character list at every character satisfying `p` (separators are
dropped, empty fields kept, as in Python `str.split(sep)`). -/
def splitPred (p : Char → Bool) : List Char → List (List Char)
  | [] => [[]]
  | c :: rest =>
    let r := splitPred p rest
    if p c then [] :: r
    else
      match r with
      | [] => [[c]]
      | h :: t => (c :: h) :: t

/-- Python `s.split()` (no separator): maximal runs of non-whitespace. -/
def wsSplit (l : List Char) : List (List Char) :=
  (splitPred Char.isWhitespace l).filter (· ≠ [])

/-- Python `s.split(':', 1)[0]` when a colon is present. -/
def beforeFirstChar (c : Char) (l : List Char) : List Char := l.takeWhile (fun x => x != c)

/-- Python `s.split(':', 1)[1]` when a colon is present. -/
def afterFirstChar (c : Char) (l : List Char) : List Char := (l.dropWhile (fun x => x != c)).drop 1

/-- Python `s.lower()` (ASCII). -/
def lowerL (l : List Char) : List Char := l.map Char.toLower

/-- Python `s.startswith(pre)` on strings. -/
def pyStartsWith (pre s : String) : Bool := pre.data.isPrefixOf s.data

/-- Python `int(s)`: digits with optional single underscores between them
(surrounding whitespace never occurs in the tokens the code parses). Digit
accumulator after the first digit. -/
def pyIntDigits : List Char → Nat → Option Nat
  | [], acc => some acc
  | '_' :: c :: rest, acc => if c.isDigit then pyIntDigits rest (acc * 10 + (c.toNat - 48)) else none
  | '_' :: [], _ => none
  | c :: rest, acc => if c.isDigit then pyIntDigits rest (acc * 10 + (c.toNat - 48)) else none

/-- Python `int(s)` for an unsigned digit string. -/
def pyIntStart : List Char → Option Nat
  | [] => none
  | c :: rest => if c.isDigit then pyIntDigits rest (c.toNat - 48) else none

/-- Python `int(s)` with optional sign; `none` models `ValueError`. -/
def pyInt? : List Char → Option Int
  | '+' :: rest => (pyIntStart rest).map (fun n => (n : Int))
  | '-' :: rest => (pyIntStart rest).map (fun n => -(n : Int))
  | s => (pyIntStart s).map (fun n => (n : Int))

/-- `os.path.basename` for the slash-separated paths the engine uses. -/
def pyBasename (s : String) : String := ⟨(s.data.reverse.takeWhile (fun c => c != '/')).reverse⟩

/-- `os.path.dirname` for slash-separated paths: everything before the last
separator, with trailing separators stripped unless the head is all
separators. -/
def pyDirname (s : String) : String :=
  let d := s.data
  let tail := d.reverse.takeWhile (fun c => c != '/')
  let head := (d.reverse.drop tail.length).reverse
  if head = [] then ""
  else if head.all (fun c => c == '/') then ⟨head⟩
  else ⟨(head.reverse.dropWhile (fun c => c == '/')).reverse⟩

/-- `os.path.splitext`: split at the last dot, provided some non-dot character
stands strictly before it (so `.bashrc` keeps an empty extension). -/
def pySplitext (s : String) : String × String :=
  let r := s.data.reverse
  let post := r.takeWhile (fun c => c != '.')
  if post.length = r.length then (s, "")
  else
    let pre := r.drop (post.length + 1)
    if pre.any (fun c => c != '.') then (⟨pre.reverse⟩, ⟨'.' :: post.reverse⟩) else (s, "")

/-- Decimal digits of `n`, least significant first; fuel-based
(`fuel = n + 1` suffices). -/
def decRev : Nat → Nat → List Char
  | 0, _ => []
  | f + 1, n => if n < 10 then [Nat.digitChar n] else Nat.digitChar (n % 10) :: decRev f (n / 10)

/-- Python `str(n)` for a natural number (decimal rendering used by the
f-string building collision suffixes). -/
def decReprS (n : Nat) : String := ⟨(decRev (n + 1) n).reverse⟩

/-- Value of a little-endian decimal digit string (left inverse of `decRev`). -/
def decVal : List Char → Nat
  | [] => 0
  | c :: rest => (c.toNat - 48) + 10 * decVal rest

/-! ### The two fixed regular expressions

`re.search` scans start positions left to right; at one position both patterns
are deterministic (each optional atom and each greedy digit run either must be
taken or dooms the position), so the scan below is an exact model. -/

/-- Maximal digit run at the head (the greedy match of one `\d+`). -/
def digitRun (l : List Char) : List Char := l.takeWhile Char.isDigit

/-- Try `d/d (\d+)-` anchored at the head of `l`, returning the capture. -/
def tryDirInodeAt (l : List Char) : Option (List Char) :=
  if ("d/d ".data).isPrefixOf l then
    let t := l.drop 4
    let run := digitRun t
    if run ≠ [] ∧ (t.drop run.length).head? = some '-' then some run else none
  else none

/-- `re.search(r"d/d (\d+)-", s)`: capture of the leftmost match. -/
def reDirInode : List Char → Option (List Char)
  | [] => none
  | c :: rest =>
    match tryDirInodeAt (c :: rest) with
    | some r => some r
    | none => reDirInode rest

/-- Try `r/r \*? ?(\d+-\d+-\d+)` anchored at the head of `l`. -/
def tryFileInodeAt (l : List Char) : Option (List Char) :=
  if ("r/r ".data).isPrefixOf l then
    let t0 := l.drop 4
    let t1 := if t0.head? = some '*' then t0.drop 1 else t0
    let t2 := if t1.head? = some ' ' then t1.drop 1 else t1
    let r1 := digitRun t2
    let u1 := t2.drop r1.length
    if r1 ≠ [] ∧ u1.head? = some '-' then
      let r2 := digitRun (u1.drop 1)
      let u2 := (u1.drop 1).drop r2.length
      if r2 ≠ [] ∧ u2.head? = some '-' then
        let r3 := digitRun (u2.drop 1)
        if r3 ≠ [] then some (r1 ++ '-' :: r2 ++ '-' :: r3) else none
      else none
    else none
  else none

/-- `re.search(r"r/r \*? ?(\d+-\d+-\d+)", s)`: capture of the leftmost match. -/
def reFileInode : List Char → Option (List Char)
  | [] => none
  | c :: rest =>
    match tryFileInodeAt (c :: rest) with
    | some r => some r
    | none => reFileInode rest

/-! ### External-tool oracle and output-directory state -/

/-- The external Sleuth Kit binaries, as a black-box oracle.  `fls i` is the
line list printed when listing directory `i` (`none` = the volume root, the
first call of `_find_inode_by_path`); `icat i` is the content of the file
written through the shell redirection, `none` when no file is created.  An
`Except.error` models the invocation raising an exception. -/
structure Tool where
  fls : Option String → Except Unit (List String)
  icat : String → Except Unit (Option (List Nat))

/-- The state of the output directory: file name to byte content. -/
abbrev FileMap := List (String × List Nat)

/-- `os.path.exists` against the modelled output directory. -/
def pyExistsMap (d : FileMap) (nm : String) : Bool := d.any (fun e => nm == e.1)

/-! ### `_find_inode_by_path` -/

/-- One line of the scan in `_find_inode_by_path`: the line must contain
`d/d`, the segment itself (case-sensitively), and a colon; then the name after
the colon must equal the segment case-insensitively and the identifier regex
must parse.  Returns the extracted identifier. -/
def lineDirMatch (part : List Char) (line : String) : Option String :=
  if pyInAux ("d/d".data) line.data && pyInAux part line.data && pyInAux [':'] line.data then
    if lowerL (stripWS (afterFirstChar ':' line.data)) = lowerL part then
      (reDirInode line.data).map (fun r => (⟨r⟩ : String))
    else none
  else none

/-- The first line of a listing that resolves a path segment. -/
def findDirEntry (part : List Char) (lines : List String) : Option String :=
  lines.findSome? (lineDirMatch part)

/-- `[p for p in path.strip('/').split('/') if p]`. -/
def pySegments (path : String) : List (List Char) :=
  (splitPred (fun c => c == '/') (stripChar '/' path.data)).filter (· ≠ [])

/-- The segment loop of `_find_inode_by_path`: advance through listings; a
segment with no matching directory entry returns `none` (NotFound)
immediately. -/
def resolveParts (t : Tool) : List (List Char) → Option String → Except Unit (Option String)
  | [], cur => .ok cur
  | part :: rest, cur =>
    match t.fls cur with
    | .error e => .error e
    | .ok lines =>
      match findDirEntry part lines with
      | some ino => resolveParts t rest (some ino)
      | none => .ok none

/-- `_find_inode_by_path`: resolve an absolute path to a directory identifier,
starting at the volume root. -/
def findInodeByPath (t : Tool) (path : String) : Except Unit (Option String) :=
  resolveParts t (pySegments path) none

/-! ### `_find_user_folders` -/

/-- The pseudo-profile denylist of `_find_user_folders`. -/
def skipFolders : List String :=
  ["Default", "Default User", "Public", "All Users", "desktop.ini", ".", "..", "$Recycle.Bin"]

/-- One line of the `/Users` listing: a directory entry whose name is
non-empty and not on the denylist. -/
def userFolderOfLine (line : String) : Option String :=
  if pyInAux ("d/d".data) line.data && pyInAux [':'] line.data then
    if stripWS (afterFirstChar ':' line.data) ≠ [] ∧
        skipFolders.contains (⟨stripWS (afterFirstChar ':' line.data)⟩ : String) = false then
      some ⟨stripWS (afterFirstChar ':' line.data)⟩
    else none
  else none

/-- `_find_user_folders`: list `/Users`, keep non-denylisted directory names.
Its own `try/except` turns any tool failure into the empty list. -/
def findUserFolders (t : Tool) : List String :=
  match findInodeByPath t "/Users" with
  | .error _ => []
  | .ok none => []
  | .ok (some ino) =>
    match t.fls (some ino) with
    | .error _ => []
    | .ok lines => lines.filterMap userFolderOfLine

/-! ### `_search_files_in_directory` (direct mode) -/

/-- The filename predicate of `_search_files_in_directory`: `*`, then `*.ext`
(case-insensitive suffix), then exact case-insensitive name. -/
def matchDirectPat (fnPat : String) (name : List Char) : Bool :=
  if fnPat = "*" then true
  else if pyStartsWith "*." fnPat then
    List.isSuffixOf ('.' :: lowerL (fnPat.data.drop 2)) (lowerL name)
  else lowerL name = lowerL fnPat.data

/-- One line of a direct listing: a regular-file line whose name matches the
filename pattern; yields the stripped info part and name.  (The
`len(parts) != 2` guard of the source is vacuous once a colon is present.) -/
def fileLineMatch (fnPat : String) (line : String) : Option (String × String) :=
  if pyInAux ("r/r".data) line.data && pyInAux [':'] line.data then
    if matchDirectPat fnPat (stripWS (afterFirstChar ':' line.data)) then
      some (⟨stripWS (beforeFirstChar ':' line.data)⟩, ⟨stripWS (afterFirstChar ':' line.data)⟩)
    else none
  else none

/-- `_search_files_in_directory`: a single listing of one directory. -/
def searchFilesInDirectory (t : Tool) (dirInode fnPat : String) :
    Except Unit (List (String × String)) :=
  match t.fls (some dirInode) with
  | .error e => .error e
  | .ok lines => .ok (lines.filterMap (fileLineMatch fnPat))

/-! ### `_search_recursive` (bounded mode) -/

/-- Traversal state of `_search_recursive`.  `log` is a ghost field recording
each directory listing performed together with the depth at which it
happened; the Python code has no such field, and no definition below reads
it back. -/
structure SearchSt where
  visited : List String
  log : List (String × Nat)
  hits : List (String × String)

/-- The filename predicate of `_search_recursive`: first `*` or exact
case-insensitive name, then `*.ext` suffix. -/
def matchRecPat (target : String) (name : List Char) : Bool :=
  if target = "*" || lowerL name == lowerL target.data then true
  else if pyStartsWith "*." target then
    List.isSuffixOf ('.' :: lowerL (target.data.drop 2)) (lowerL name)
  else false

/-- Split one listing line into stripped info and name parts (lines without a
colon are skipped). -/
def lineParts (line : String) : Option (List Char × List Char) :=
  if pyInAux [':'] line.data then
    some (stripWS (beforeFirstChar ':' line.data), stripWS (afterFirstChar ':' line.data))
  else none

/-- `search_dir` of `_search_recursive`: depth- and visited-guarded traversal.
The fuel argument only realises the recursion; started with
`fuel = maxDepth + 1` at depth 0 the fuel never runs out before the depth
guard fires, so the semantics match the source exactly. -/
def searchDir (t : Tool) (target : String) (maxDepth : Nat) :
    Nat → String → Nat → SearchSt → Except Unit SearchSt
  | 0, _, _, st => .ok st
  | f + 1, ino, depth, st =>
    if maxDepth < depth ∨ st.visited.contains ino = true then .ok st
    else
      let st1 : SearchSt :=
        { visited := ino :: st.visited, log := st.log ++ [(ino, depth)], hits := st.hits }
      match t.fls (some ino) with
      | .error e => .error e
      | .ok lines =>
        lines.foldl (fun acc line =>
          match acc with
          | .error e => .error e
          | .ok s =>
            match lineParts line with
            | none => .ok s
            | some (info, name) =>
              let s2 :=
                if pyInAux ("r/r".data) info && matchRecPat target name then
                  { s with hits := s.hits ++ [((⟨info⟩ : String), (⟨name⟩ : String))] }
                else s
              if pyInAux ("d/d".data) info then
                match reDirInode info with
                | some sub => searchDir t target maxDepth f (⟨sub⟩ : String) (depth + 1) s2
                | none => .ok s2
              else .ok s2) (.ok st1)

/-- `_search_recursive`, exposing the full final traversal state. -/
def searchRecursiveSt (t : Tool) (startInode target : String) (maxDepth : Nat) :
    Except Unit SearchSt :=
  searchDir t target maxDepth (maxDepth + 1) startInode 0 ⟨[], [], []⟩

/-- `_search_recursive`: the collected matches. -/
def searchRecursive (t : Tool) (startInode target : String) (maxDepth : Nat) :
    Except Unit (List (String × String)) :=
  (searchRecursiveSt t startInode target maxDepth).map (·.hits)

/-! ### `_extract_file` -/

/-- The characters `re.sub(r'[<>:"/\\|?*]', '_', name)` replaces. -/
def illegalChars : List Char := ['<', '>', ':', '\"', '/', '\\', '|', '?', '*']

/-- Replace one character if illegal in a destination file name. -/
def sanChar (c : Char) : Char := if illegalChars.contains c then '_' else c

/-- `safe_name` of `_extract_file`: final path component, illegal characters
replaced by underscores. -/
def sanitizeName (fname : String) : String := ⟨(pyBasename fname).data.map sanChar⟩

/-- The candidate name `f"{base}_{counter}{ext}"`. -/
def mkName (base ex : String) (k : Nat) : String := base ++ "_" ++ decReprS k ++ ex

/-- The collision loop of `_extract_file`: smallest counter `k ≥ k0` whose
name is free; fuel-based (`fuel = d.length + 1` always suffices, see
`findFree_not_exists`). -/
def findFree (d : FileMap) (base ex : String) : Nat → Nat → String
  | 0, k => mkName base ex k
  | f + 1, k =>
    let nm := mkName base ex k
    if pyExistsMap d nm then findFree d base ex f (k + 1) else nm

/-- The destination name chosen by `_extract_file` before invoking the
extractor: the sanitized name, or the first free suffixed name on
collision. -/
def extractDest (d : FileMap) (fname : String) : String :=
  let safe := sanitizeName fname
  if pyExistsMap d safe then
    let be := pySplitext safe
    findFree d be.1 be.2 (d.length + 1) 1
  else safe

/-- `_extract_file`: run the content extractor into the chosen destination;
report the path only when the resulting file exists with non-zero size.  A
zero-byte result stays in the directory but is reported as `none`. -/
def extractFile (t : Tool) (d : FileMap) (ino fname : String) :
    Except Unit (FileMap × Option String) :=
  let dest := extractDest d fname
  match t.icat ino with
  | .error e => .error e
  | .ok none => .ok (d, none)
  | .ok (some bs) => .ok ((dest, bs) :: d, if 0 < bs.length then some dest else none)

/-! ### `_extract_pattern` -/

/-- Parse the full content identifier out of a match's info part. -/
def inodeOfInfo (info : String) : Option String :=
  (reFileInode info.data).map (fun r => (⟨r⟩ : String))

/-- The extraction loop of `_extract_pattern` over the collected matches.  A
tool exception aborts the loop but keeps the paths and directory state
accumulated so far — exactly the effect of the `try/except` around the
source loop. -/
def extractMatches (t : Tool) : List (String × String) → FileMap → FileMap × List String
  | [], d => (d, [])
  | (info, name) :: rest, d =>
    match inodeOfInfo info with
    | none => extractMatches t rest d
    | some ino =>
      match extractFile t d ino name with
      | .error _ => (d, [])
      | .ok (d1, none) => extractMatches t rest d1
      | .ok (d1, some p) =>
        let r := extractMatches t rest d1
        (r.1, p :: r.2)

/-- The wildcard placeholder recognised in directory portions. -/
def wildSeg : String := "/*/"

/-- The match-collection phase of `_extract_pattern`: classify the directory
portion by `dir_path.count('/*/')` and run the selected search. -/
def collectMatches (t : Tool) (pattern : String) : Except Unit (List (String × String)) :=
  let dirPath := pyDirname pattern
  let fnPat := pyBasename pattern
  let wc := pyCountS dirPath wildSeg
  if 2 ≤ wc then
    match findInodeByPath t (beforeSub dirPath wildSeg) with
    | .error e => .error e
    | .ok none => .ok []
    | .ok (some ino) => searchRecursive t ino fnPat 4
  else if wc = 1 then
    match findInodeByPath t (beforeSub dirPath wildSeg) with
    | .error e => .error e
    | .ok none => .ok []
    | .ok (some ino) => searchRecursive t ino fnPat 3
  else
    match findInodeByPath t dirPath with
    | .error e => .error e
    | .ok none => .ok []
    | .ok (some ino) => searchFilesInDirectory t ino fnPat

/-- Finish `_extract_pattern`: a failure during match collection is caught and
yields no results; otherwise extract every match. -/
def runMatches (t : Tool) (msE : Except Unit (List (String × String))) (d : FileMap) :
    FileMap × List String :=
  match msE with
  | .error _ => (d, [])
  | .ok ms => extractMatches t ms d

/-- `_extract_pattern`: search for one concrete pattern and extract the
matches, never letting an exception escape. -/
def extractPattern (t : Tool) (pattern : String) (d : FileMap) : FileMap × List String :=
  runMatches t (collectMatches t pattern) d

/-! ### `extract_files` -/

/-- The any-user-profile placeholder. -/
def usersWild : String := "/Users/*/"

/-- The per-user expansion loop: substitute each discovered user into the
pattern and extract. -/
def userLoop (t : Tool) : List String → String → FileMap → FileMap × List String
  | [], _, d => (d, [])
  | u :: us, p, d =>
    let r1 := extractPattern t (pyReplaceS p usersWild ("/Users/" ++ u ++ "/")) d
    let r2 := userLoop t us p r1.1
    (r2.1, r1.2 ++ r2.2)

/-- One pattern of the main loop of `extract_files`: expand the placeholder
when present and users were discovered, otherwise extract directly. -/
def patternStep (t : Tool) (users : List String) (p : String) (d : FileMap) :
    FileMap × List String :=
  if pyInS usersWild p ∧ users ≠ [] then userLoop t users p d
  else extractPattern t p d

/-- The main loop of `extract_files` over the requested patterns. -/
def extractLoop (t : Tool) (users : List String) : List String → FileMap → FileMap × List String
  | [], d => (d, [])
  | p :: rest, d =>
    let r1 := patternStep t users p d
    let r2 := extractLoop t users rest r1.1
    (r2.1, r1.2 ++ r2.2)

/-- `extract_files`: discover users once when some pattern contains the
placeholder — returning the empty list at once when none are found — then
process every pattern. -/
def extractFiles (t : Tool) (patterns : List String) (d : FileMap) : FileMap × List String :=
  if patterns.any (fun p => pyInS usersWild p) then
    let users := findUserFolders t
    if users = [] then (d, [])
    else extractLoop t users patterns d
  else extractLoop t [] patterns d

/-! ### `_find_main_partition` -/

/-- Substrings marking header, separator and meta lines to skip. -/
def headerNoise : List String := ["Meta", "---", "Slot", "Unallocated"]

/-- One line of the partition listing: `some (offset, length)` when the line
survives every guard of the loop body (not noise, at least five fields,
both integer fields parse, at least 1 GiB, NTFS/exFAT label).  The float
comparison `(length * 512) / 1024**3 < 1` is modelled exactly on integers
as `length * 512 < 2^30`. -/
def partitionCandidate (line : String) : Option (Int × Int) :=
  if headerNoise.any (fun h => pyInS h line) then none
  else
    let parts := wsSplit line.data
    if 5 ≤ parts.length then
      match pyInt? (parts.getD 2 []), pyInt? (parts.getD 4 []) with
      | some off, some len =>
        if len * 512 < 1073741824 then none
        else if pyInS "NTFS" line ∨ pyInS "exFAT" line then some (off, len)
        else none
      | _, _ => none
    else none

/-- The best-candidate fold of `_find_main_partition`: keep the first strictly
larger length. -/
def selectPart : List (Int × Int) → Option Int → Int → Option Int
  | [], best, _ => best
  | (off, len) :: rest, best, bestSize =>
    if bestSize < len then selectPart rest (some off) len
    else selectPart rest best bestSize

/-- `_find_main_partition`: the selected partition offset.  The final
`if best_offset:` is Python truthiness — both `None` and `0` fall to the
fallback offset `0`. -/
def findMainPartitionOffset (lines : List String) : Int :=
  match selectPart (lines.filterMap partitionCandidate) none 0 with
  | some off => if off = 0 then 0 else off
  | none => 0

/-! ### Lemmas about the partition selection fold -/

/-- When no remaining candidate beats the running best size, the fold keeps
the running best offset. -/
lemma selectPart_all_le (cs : List (Int × Int)) :
    ∀ best bsz, (∀ c ∈ cs, c.2 ≤ bsz) → selectPart cs best bsz = best := by
  induction cs with
  | nil => intro best bsz _; rfl
  | cons c rest ih =>
    intro best bsz h
    obtain ⟨off, len⟩ := c
    have hc : len ≤ bsz := h (off, len) (List.mem_cons_self _ _)
    simp only [selectPart]
    rw [if_neg (by omega)]
    exact ih best bsz (fun d hd => h d (List.mem_cons_of_mem _ hd))

/-- When some candidate beats the running best size, the fold lands on the
first candidate of maximal length: it beats the running best, no candidate
is larger, and every earlier candidate is strictly smaller. -/
lemma selectPart_argmax (cs : List (Int × Int)) :
    ∀ best bsz, (∃ c ∈ cs, bsz < c.2) →
    ∃ (i : Nat) (h : i < cs.length),
      selectPart cs best bsz = some (cs.get ⟨i, h⟩).1 ∧
      bsz < (cs.get ⟨i, h⟩).2 ∧
      (∀ (j : Nat) (hj : j < cs.length), (cs.get ⟨j, hj⟩).2 ≤ (cs.get ⟨i, h⟩).2) ∧
      (∀ (j : Nat) (hj : j < cs.length), j < i → (cs.get ⟨j, hj⟩).2 < (cs.get ⟨i, h⟩).2) := by
  induction cs with
  | nil => intro best bsz h; obtain ⟨c, hc, _⟩ := h; cases hc
  | cons c rest ih =>
    intro best bsz hex
    obtain ⟨off, len⟩ := c
    by_cases hlt : bsz < len
    · by_cases hrest : ∃ d ∈ rest, len < d.2
      · obtain ⟨i, hi, h1, h2, h3, h4⟩ := ih (some off) len hrest
        refine ⟨i + 1, Nat.succ_lt_succ hi, ?_, ?_, ?_, ?_⟩
        · simp only [selectPart, List.get_cons_succ]
          rw [if_pos hlt]; exact h1
        · simpa only [List.get_cons_succ] using lt_trans hlt h2
        · intro j hj
          cases j with
          | zero => simpa only [List.get_cons_zero, List.get_cons_succ] using le_of_lt h2
          | succ j =>
            simpa only [List.get_cons_succ] using h3 j (Nat.lt_of_succ_lt_succ hj)
        · intro j hj hji
          cases j with
          | zero => simpa only [List.get_cons_zero, List.get_cons_succ] using h2
          | succ j =>
            simpa only [List.get_cons_succ] using
              h4 j (Nat.lt_of_succ_lt_succ hj) (Nat.lt_of_succ_lt_succ hji)
      · push_neg at hrest
        refine ⟨0, Nat.succ_pos _, ?_, by simpa using hlt, ?_, ?_⟩
        · simp only [selectPart, List.get_cons_zero]
          rw [if_pos hlt]
          exact selectPart_all_le rest (some off) len hrest
        · intro j hj
          cases j with
          | zero => simp
          | succ j =>
            simpa only [List.get_cons_zero, List.get_cons_succ] using
              hrest _ (List.get_mem rest _ _)
        · intro j _ hj0; cases hj0
    · have hex' : ∃ d ∈ rest, bsz < d.2 := by
        obtain ⟨d, hd, hd2⟩ := hex
        rcases List.mem_cons.mp hd with h | h
        · subst h; exact absurd hd2 hlt
        · exact ⟨d, h, hd2⟩
      obtain ⟨i, hi, h1, h2, h3, h4⟩ := ih best bsz hex'
      refine ⟨i + 1, Nat.succ_lt_succ hi, ?_, ?_, ?_, ?_⟩
      · simp only [selectPart, List.get_cons_succ]
        rw [if_neg hlt]; exact h1
      · simpa only [List.get_cons_succ] using h2
      · intro j hj
        cases j with
        | zero =>
          simpa only [List.get_cons_zero, List.get_cons_succ] using
            le_of_lt (lt_of_le_of_lt (not_lt.mp hlt) h2)
        | succ j =>
          simpa only [List.get_cons_succ] using h3 j (Nat.lt_of_succ_lt_succ hj)
      · intro j hj hji
        cases j with
        | zero =>
          simpa only [List.get_cons_zero, List.get_cons_succ] using
            lt_of_le_of_lt (not_lt.mp hlt) h2
        | succ j =>
          simpa only [List.get_cons_succ] using
            h4 j (Nat.lt_of_succ_lt_succ hj) (Nat.lt_of_succ_lt_succ hji)

/-- Every surviving candidate is at least 1 GiB, hence has positive length. -/
lemma partitionCandidate_big {line : String} {c : Int × Int}
    (h : partitionCandidate line = some c) : (2097152 : Int) ≤ c.2 := by
  unfold partitionCandidate at h
  split at h
  · cases h
  · dsimp only at h
    split at h
    · split at h
      · split at h
        · cases h
        · split at h
          · cases h
            omega
          · cases h
      · cases h
    · cases h

/-! ### Claim C4 -/

/-- Claim C4: for every partition-table listing, the selected volume is the
entry whose line contains "NTFS" or "exFAT" with the largest length in
sectors among entries of at least 1 GiB (`length * 512 / 2^30`), ties broken
in favour of the first such entry in listing order; if no entry qualifies the
selected offset is 0.  The qualifying entries are exactly
`lines.filterMap partitionCandidate`. -/
theorem claim_C4 (lines : List String) :
    (lines.filterMap partitionCandidate = [] → findMainPartitionOffset lines = 0) ∧
    (lines.filterMap partitionCandidate ≠ [] →
      ∃ (i : Nat) (h : i < (lines.filterMap partitionCandidate).length),
        findMainPartitionOffset lines =
          ((lines.filterMap partitionCandidate).get ⟨i, h⟩).1 ∧
        (∀ (j : Nat) (hj : j < (lines.filterMap partitionCandidate).length),
          ((lines.filterMap partitionCandidate).get ⟨j, hj⟩).2 ≤
            ((lines.filterMap partitionCandidate).get ⟨i, h⟩).2) ∧
        (∀ (j : Nat) (hj : j < (lines.filterMap partitionCandidate).length), j < i →
          ((lines.filterMap partitionCandidate).get ⟨j, hj⟩).2 <
            ((lines.filterMap partitionCandidate).get ⟨i, h⟩).2)) := by
  constructor
  · intro h
    simp [findMainPartitionOffset, h, selectPart]
  · intro hne
    obtain ⟨c0, cs0, hcs⟩ : ∃ c0 cs0, lines.filterMap partitionCandidate = c0 :: cs0 := by
      cases hcase : lines.filterMap partitionCandidate with
      | nil => exact absurd hcase hne
      | cons a l => exact ⟨a, l, rfl⟩
    have hc0 : c0 ∈ lines.filterMap partitionCandidate := by rw [hcs]; exact List.mem_cons_self _ _
    obtain ⟨line, _, hline⟩ := List.mem_filterMap.mp hc0
    have hbig := partitionCandidate_big hline
    obtain ⟨i, h, h1, _, h3, h4⟩ :=
      selectPart_argmax (lines.filterMap partitionCandidate) none 0 ⟨c0, hc0, by omega⟩
    refine ⟨i, h, ?_, h3, h4⟩
    unfold findMainPartitionOffset
    rw [h1]
    dsimp only
    by_cases hz : ((lines.filterMap partitionCandidate).get ⟨i, h⟩).1 = 0
    · rw [if_pos hz, hz]
    · rw [if_neg hz]

/-- A concrete five-line listing exercising every guard of the partition
scan: header, meta, unallocated, a small NTFS volume and a large one. -/
def mmlsLines : List String :=
  ["Slot    Start        End          Length       Description",
   "000:  Meta      0000000000   0000000000   0000000001   Primary Table (#0)",
   "001:  -------   0000000000   0000002047   0000002048   Unallocated",
   "002:  000:000   0000002048   0000104447   0000102400   NTFS / exFAT (0x07)",
   "003:  000:001   0000104448   0124734354   0124629907   NTFS / exFAT (0x07)"]

/-- Witness for claim C4 at a concrete listing. -/
theorem claim_C4_witness :
    ∃ (i : Nat) (h : i < (mmlsLines.filterMap partitionCandidate).length),
      findMainPartitionOffset mmlsLines =
        ((mmlsLines.filterMap partitionCandidate).get ⟨i, h⟩).1 ∧
      (∀ (j : Nat) (hj : j < (mmlsLines.filterMap partitionCandidate).length),
        ((mmlsLines.filterMap partitionCandidate).get ⟨j, hj⟩).2 ≤
          ((mmlsLines.filterMap partitionCandidate).get ⟨i, h⟩).2) ∧
      (∀ (j : Nat) (hj : j < (mmlsLines.filterMap partitionCandidate).length), j < i →
        ((mmlsLines.filterMap partitionCandidate).get ⟨j, hj⟩).2 <
          ((mmlsLines.filterMap partitionCandidate).get ⟨i, h⟩).2) :=
  (claim_C4 mmlsLines).2 (by decide)

/-! ### Lemmas about the string primitives -/

/-- A character of `sub` occurs in `l` whenever `sub` occurs in `l`. -/
lemma mem_of_countSubAux_ne {sub : List Char} {c : Char} (hc : c ∈ sub) :
    ∀ (f : Nat) (l : List Char), countSubAux sub f l ≠ 0 → c ∈ l := by
  intro f
  induction f with
  | zero => intro l h; exact absurd rfl h
  | succ f ih =>
    intro l h
    cases l with
    | nil => exact absurd rfl h
    | cons x rest =>
      by_cases hp : sub.isPrefixOf (x :: rest)
      · have hpre : sub <+: x :: rest := List.isPrefixOf_iff_prefix.mp hp
        exact hpre.subset hc
      · rw [countSubAux, if_neg hp] at h
        exact List.mem_cons_of_mem _ (ih rest h)

/-- A character surviving the strip predicate survives `stripChar`. -/
lemma mem_stripChar {x c : Char} {l : List Char} (hx : x ∈ l) (hne : x ≠ c) :
    x ∈ stripChar c l := by
  have key : ∀ m : List Char, x ∈ m → x ∈ m.dropWhile (fun y => y == c) := by
    intro m hm
    have hsplit := List.takeWhile_append_dropWhile (fun y => y == c) m
    rcases List.mem_append.mp (by rw [hsplit]; exact hm) with h | h
    · have := List.mem_takeWhile_imp h
      simp only [beq_iff_eq] at this
      exact absurd this hne
    · exact h
  unfold stripChar
  rw [List.mem_reverse]
  exact key _ (by rw [List.mem_reverse]; exact key _ hx)

/-- Every non-separator character of `l` lands in some field of `splitPred`. -/
lemma splitPred_exists_part (p : Char → Bool) :
    ∀ (l : List Char) (x : Char), x ∈ l → p x = false →
      ∃ part ∈ splitPred p l, x ∈ part := by
  intro l
  induction l with
  | nil => intro x hx; cases hx
  | cons y rest ih =>
    intro x hx hpx
    rcases List.mem_cons.mp hx with rfl | hx'
    · have hpy := hpx
      unfold splitPred
      rw [if_neg (by simp [hpy])]
      cases hr : splitPred p rest with
      | nil => exact ⟨[x], List.mem_singleton.mpr rfl, List.mem_singleton.mpr rfl⟩
      | cons h0 t0 => exact ⟨x :: h0, List.mem_cons_self _ _, List.mem_cons_self _ _⟩
    · obtain ⟨part, hpart, hxp⟩ := ih x hx' hpx
      unfold splitPred
      by_cases hpy : p y = true
      · rw [if_pos hpy]
        exact ⟨part, List.mem_cons_of_mem _ hpart, hxp⟩
      · rw [if_neg hpy]
        cases hr : splitPred p rest with
        | nil => rw [hr] at hpart; cases hpart
        | cons h0 t0 =>
          rw [hr] at hpart
          rcases List.mem_cons.mp hpart with rfl | hin
          · exact ⟨y :: part, List.mem_cons_self _ _, List.mem_cons_of_mem _ hxp⟩
          · exact ⟨part, List.mem_cons_of_mem _ hin, hxp⟩

/-- A path whose segment list is empty consists of separators only. -/
lemma all_sep_of_segments_nil {s : String} (h : pySegments s = []) :
    ∀ x ∈ s.data, x = '/' := by
  intro x hx
  by_contra hne
  have hx' : x ∈ stripChar '/' s.data := mem_stripChar hx hne
  obtain ⟨part, hpart, hxp⟩ :=
    splitPred_exists_part (fun c => c == '/') _ x hx' (by simpa using hne)
  have hmem : part ∈ pySegments s :=
    List.mem_filter.mpr ⟨hpart, by simpa using List.ne_nil_of_mem hxp⟩
  rw [h] at hmem
  cases hmem

/-- A path with no non-empty segments contains no `/*/` wildcard. -/
lemma count_wild_zero_of_segments_nil {s : String} (h : pySegments s = []) :
    pyCountS s wildSeg = 0 := by
  by_contra hne
  have hstar : '*' ∈ s.data :=
    @mem_of_countSubAux_ne wildSeg.data '*' (by decide) _ _ hne
  have := all_sep_of_segments_nil h '*' hstar
  cases this

/-! ### Claim C10 -/

/-- Claim C10: for every pattern whose directory portion has no non-empty
segments (such as `/name` or `/name.ext`), path resolution returns NotFound
(`none`), so the pattern contributes zero results and leaves the output
directory untouched — even when a matching file-kind entry exists in the
root listing (the tool `t` is arbitrary). -/
theorem claim_C10 (t : Tool) (pattern : String) (d : FileMap)
    (h : pySegments (pyDirname pattern) = []) :
    findInodeByPath t (pyDirname pattern) = .ok none ∧
    extractPattern t pattern d = (d, []) := by
  have hfind : findInodeByPath t (pyDirname pattern) = .ok none := by
    unfold findInodeByPath
    rw [h]
    rfl
  refine ⟨hfind, ?_⟩
  have hwc : pyCountS (pyDirname pattern) wildSeg = 0 := count_wild_zero_of_segments_nil h
  unfold extractPattern collectMatches
  simp only [hwc]
  rw [if_neg (by omega), if_neg (by omega), hfind]
  rfl

/-- A root listing holding a matching file-kind entry: the engine still
resolves nothing for `/secret.txt`. -/
def rootFileTool : Tool where
  fls := fun i => .ok (match i with
    | none => ["r/r 42-128-1:\tsecret.txt"]
    | some _ => [])
  icat := fun s => .ok (if s = "42-128-1" then some [9] else none)

/-- Witness for claim C10: the root listing contains a matching file-kind
entry, yet the pattern contributes zero results. -/
theorem claim_C10_witness :
    fileLineMatch "secret.txt" "r/r 42-128-1:\tsecret.txt" =
      some ("r/r 42-128-1", "secret.txt") ∧
    extractPattern rootFileTool "/secret.txt" [] = ([], []) :=
  ⟨by rfl, (claim_C10 rootFileTool "/secret.txt" [] (by rfl)).2⟩

/-! ### Claim C3 -/

/-- A scan line whose text does not contain the segment verbatim can never
match, whatever its name part is. -/
lemma lineDirMatch_none {part : List Char} {line : String}
    (h : pyInAux part line.data = false) : lineDirMatch part line = none := by
  unfold lineDirMatch
  rw [show (pyInAux ("d/d".data) line.data && pyInAux part line.data && pyInAux [':'] line.data)
      = false by rw [h]; simp]
  rfl

/-- Counterexample to claim C3 as stated: the root listing holds the
directory `Users`, whose name equals the segment `users` case-insensitively,
yet `/users` does not resolve — the scan requires the segment to occur in
the line as a case-sensitive substring before the case-insensitive name
comparison is ever made. -/
def usersCaseTool : Tool where
  fls := fun i => .ok (match i with
    | none => ["d/d 5-144-1:\tUsers"]
    | some _ => [])
  icat := fun _ => .ok none

/-- Claim C3 is false: a segment differing from the on-disk name only in
letter case does not resolve. -/
theorem claim_C3_counterexample :
    lowerL ("users".data) = lowerL ("Users".data) ∧
    findInodeByPath usersCaseTool "/Users" = .ok (some "5") ∧
    findInodeByPath usersCaseTool "/users" = .ok none :=
  ⟨rfl, rfl, rfl⟩

/-- Claim C3 (amended): path resolution advances one segment at a time by
matching directory-kind entries whose name after the colon equals the
segment case-insensitively AND whose whole line contains the segment as a
case-sensitive substring (so a segment differing from the on-disk name only
in letter case does NOT resolve unless it also occurs verbatim in the
line); resolution returns NotFound (`none`) immediately, with no partial
result, as soon as a listing has no matching line. -/
theorem claim_C3 :
    (∀ (part : List Char) (lines : List String),
      (∀ line ∈ lines, pyInAux part line.data = false) → findDirEntry part lines = none) ∧
    (∀ (part : List Char) (lines : List String) (ino : String),
      findDirEntry part lines = some ino →
      ∃ line ∈ lines, pyInAux part line.data = true ∧
        lowerL (stripWS (afterFirstChar ':' line.data)) = lowerL part ∧
        reDirInode line.data = some ino.data) ∧
    (∀ (t : Tool) (part : List Char) (rest : List (List Char)) (cur : Option String)
      (lines : List String), t.fls cur = .ok lines → findDirEntry part lines = none →
      resolveParts t (part :: rest) cur = .ok none) ∧
    (∀ (t : Tool) (part : List Char) (rest : List (List Char)) (cur : Option String)
      (lines : List String) (ino : String), t.fls cur = .ok lines →
      findDirEntry part lines = some ino →
      resolveParts t (part :: rest) cur = resolveParts t rest (some ino)) ∧
    (∀ (t : Tool) (path : String),
      findInodeByPath t path = resolveParts t (pySegments path) none) := by
  refine ⟨?_, ?_, ?_, ?_, ?_⟩
  · intro part lines h
    unfold findDirEntry
    induction lines with
    | nil => rfl
    | cons line rest ih =>
      rw [List.findSome?_cons, lineDirMatch_none (h line (List.mem_cons_self _ _))]
      exact ih (fun l hl => h l (List.mem_cons_of_mem _ hl))
  · intro part lines ino h
    unfold findDirEntry at h
    induction lines with
    | nil => cases h
    | cons line rest ih =>
      rw [List.findSome?_cons] at h
      cases hl : lineDirMatch part line with
      | some v =>
        rw [hl] at h
        cases h
        unfold lineDirMatch at hl
        split at hl
        · split at hl
          · obtain ⟨r, hr, hv⟩ := Option.map_eq_some'.mp hl
            refine ⟨line, List.mem_cons_self _ _, ?_, by assumption, ?_⟩
            · have hcond := ‹(pyInAux ("d/d".data) line.data && pyInAux part line.data &&
                pyInAux [':'] line.data) = true›
              simp only [Bool.and_eq_true] at hcond
              exact hcond.1.2
            · subst hv
              exact hr
          · cases hl
        · cases hl
      | none =>
        rw [hl] at h
        obtain ⟨l, hmem, hrest⟩ := ih h
        exact ⟨l, List.mem_cons_of_mem _ hmem, hrest⟩
  · intro t part rest cur lines hfls hfind
    unfold resolveParts
    rw [hfls]
    dsimp only
    rw [hfind]
  · intro t part rest cur lines ino hfls hfind
    simp only [resolveParts, hfls, hfind]
  · intro t path
    rfl

/-- Witness for claim C3 at a concrete listing: a segment occurring in no
line verbatim finds no entry, and resolution is NotFound at once. -/
theorem claim_C3_witness :
    findDirEntry ("users".data) ["d/d 5-144-1:\tUsers"] = none ∧
    resolveParts usersCaseTool [("users".data)] none = .ok none :=
  ⟨claim_C3.1 ("users".data) ["d/d 5-144-1:\tUsers"] (by decide),
   claim_C3.2.2.1 usersCaseTool ("users".data) [] none ["d/d 5-144-1:\tUsers"] rfl
     (claim_C3.1 ("users".data) ["d/d 5-144-1:\tUsers"] (by decide))⟩

/-! ### Invariants of the recursive search -/

/-- What one (sub)traversal may do to the search state: the visited set only
grows, and the listing log is extended by entries whose depth respects the
bound, whose directories were fresh when listed and are visited afterwards,
and which are pairwise distinct. -/
def SearchInv (md : Nat) (st st' : SearchSt) : Prop :=
  (∀ x ∈ st.visited, x ∈ st'.visited) ∧
  ∃ tl, st'.log = st.log ++ tl ∧
    (∀ p ∈ tl, p.2 ≤ md ∧ p.1 ∈ st'.visited ∧ p.1 ∉ st.visited) ∧
    (tl.map Prod.fst).Nodup

lemma searchInv_refl (md : Nat) (st : SearchSt) : SearchInv md st st :=
  ⟨fun _ hx => hx, [], by simp, by simp, List.nodup_nil⟩

lemma searchInv_of_eq {md : Nat} {st st' : SearchSt} (hv : st'.visited = st.visited)
    (hl : st'.log = st.log) : SearchInv md st st' :=
  ⟨fun x hx => hv ▸ hx, [], by simp [hl], by simp, List.nodup_nil⟩

lemma searchInv_trans {md : Nat} {s1 s2 s3 : SearchSt}
    (h12 : SearchInv md s1 s2) (h23 : SearchInv md s2 s3) : SearchInv md s1 s3 := by
  obtain ⟨hv12, tl1, hl12, hp1, hn1⟩ := h12
  obtain ⟨hv23, tl2, hl23, hp2, hn2⟩ := h23
  refine ⟨fun x hx => hv23 x (hv12 x hx), tl1 ++ tl2, ?_, ?_, ?_⟩
  · rw [hl23, hl12, List.append_assoc]
  · intro p hp
    rcases List.mem_append.mp hp with h | h
    · obtain ⟨hd, hin, hout⟩ := hp1 p h
      exact ⟨hd, hv23 _ hin, hout⟩
    · obtain ⟨hd, hin, hout⟩ := hp2 p h
      exact ⟨hd, hin, fun hmem => hout (hv12 _ hmem)⟩
  · rw [List.map_append, List.nodup_append]
    refine ⟨hn1, hn2, ?_⟩
    intro x hx1 hx2
    obtain ⟨p, hp, hpx⟩ := List.mem_map.mp hx1
    obtain ⟨q, hq, hqx⟩ := List.mem_map.mp hx2
    exact (hp2 q hq).2.2 (by rw [hqx, ← hpx]; exact (hp1 p hp).2.1)

/-- A fold whose step freezes errors keeps an error accumulator forever. -/
lemma foldl_error_frozen {α σ ε : Type} (f : Except ε σ → α → Except ε σ)
    (herr : ∀ e a, f (.error e) a = .error e) :
    ∀ (l : List α) (e : ε), l.foldl f (.error e) = .error e := by
  intro l
  induction l with
  | nil => intro e; rfl
  | cons a rest ih => intro e; rw [List.foldl_cons, herr]; exact ih e

/-- Generic relational invariant for an `Except`-accumulating fold: if every
successful step realises a reflexive-transitive relation, so does the whole
fold. -/
lemma foldl_rel {α σ ε : Type} (f : Except ε σ → α → Except ε σ) (R : σ → σ → Prop)
    (hrefl : ∀ s, R s s) (htrans : ∀ a b c, R a b → R b c → R a c)
    (herr : ∀ e a, f (.error e) a = .error e)
    (hstep : ∀ s a s', f (.ok s) a = .ok s' → R s s') :
    ∀ (l : List α) (s s'), l.foldl f (.ok s) = .ok s' → R s s' := by
  intro l
  induction l with
  | nil =>
    intro s s' h
    cases h
    exact hrefl s
  | cons a rest ih =>
    intro s s' h
    rw [List.foldl_cons] at h
    cases hstep1 : f (.ok s) a with
    | error e =>
      rw [hstep1, foldl_error_frozen f herr] at h
      cases h
    | ok s1 =>
      rw [hstep1] at h
      exact htrans s s1 s' (hstep s a s1 hstep1) (ih s1 s' h)

/-- The depth guard stops a branch without touching the state. -/
lemma searchDir_stop_depth {t : Tool} {target : String} {md : Nat}
    (fuel : Nat) (ino : String) (depth : Nat) (st : SearchSt) (h : md < depth) :
    searchDir t target md fuel ino depth st = .ok st := by
  cases fuel with
  | zero => rfl
  | succ f =>
    unfold searchDir
    rw [if_pos (Or.inl h)]

/-- The visited guard stops a branch without touching the state. -/
lemma searchDir_stop_visited {t : Tool} {target : String} {md : Nat}
    (fuel : Nat) (ino : String) (depth : Nat) (st : SearchSt)
    (h : st.visited.contains ino = true) :
    searchDir t target md fuel ino depth st = .ok st := by
  cases fuel with
  | zero => rfl
  | succ f =>
    unfold searchDir
    rw [if_pos (Or.inr h)]

/-- Main invariant of `search_dir`: every successful traversal realises
`SearchInv`. -/
lemma searchDir_inv (t : Tool) (target : String) (md : Nat) :
    ∀ (fuel : Nat) (ino : String) (depth : Nat) (st st' : SearchSt),
      searchDir t target md fuel ino depth st = .ok st' → SearchInv md st st' := by
  intro fuel
  induction fuel with
  | zero =>
    intro ino depth st st' h
    cases h
    exact searchInv_refl md st
  | succ f ih =>
    intro ino depth st st' h
    unfold searchDir at h
    by_cases hg : md < depth ∨ st.visited.contains ino = true
    · rw [if_pos hg] at h
      cases h
      exact searchInv_refl md st
    · rw [if_neg hg] at h
      push_neg at hg
      obtain ⟨hdep, hvis⟩ := hg
      have hnotmem : ino ∉ st.visited := by
        intro hmem
        exact absurd (List.elem_eq_true_of_mem hmem) (by simpa using hvis)
      cases hfls : t.fls (some ino) with
      | error e =>
        rw [hfls] at h
        cases h
      | ok lines =>
        rw [hfls] at h
        dsimp only at h
        have hbase : SearchInv md st
            ⟨ino :: st.visited, st.log ++ [(ino, depth)], st.hits⟩ := by
          refine ⟨fun x hx => List.mem_cons_of_mem _ hx, [(ino, depth)], rfl, ?_, by simp⟩
          intro p hp
          rcases List.mem_singleton.mp hp with rfl
          exact ⟨hdep, List.mem_cons_self _ _, hnotmem⟩
        refine searchInv_trans hbase ?_
        refine foldl_rel _ (SearchInv md) (searchInv_refl md)
          (fun a b c => searchInv_trans) (fun e a => rfl) ?_ lines _ st' h
        intro s line s' hstep
        dsimp only at hstep
        cases hlp : lineParts line with
        | none =>
          rw [hlp] at hstep
          cases hstep
          exact searchInv_refl md s
        | some pr =>
          obtain ⟨info, name⟩ := pr
          rw [hlp] at hstep
          dsimp only at hstep
          by_cases hdd : pyInAux ("d/d".data) info = true
          · rw [if_pos hdd] at hstep
            cases hre : reDirInode info with
            | some sub =>
              rw [hre] at hstep
              refine searchInv_trans (searchInv_of_eq ?_ ?_) (ih _ _ _ _ hstep) <;>
                by_cases hrr : (pyInAux ("r/r".data) info && matchRecPat target name) = true <;>
                simp [hrr]
            | none =>
              rw [hre] at hstep
              cases hstep
              by_cases hrr : (pyInAux ("r/r".data) info && matchRecPat target name) = true <;>
                [skip; skip] <;> refine searchInv_of_eq ?_ ?_ <;> simp [hrr]
          · rw [if_neg hdd] at hstep
            cases hstep
            by_cases hrr : (pyInAux ("r/r".data) info && matchRecPat target name) = true <;>
              [skip; skip] <;> refine searchInv_of_eq ?_ ?_ <;> simp [hrr]

/-! ### Claim C5 -/

/-- Claim C5: the depth-bounded recursive search is total in this embedding
(it is a Lean function, so it terminates and returns a finite list for every
directory graph, cyclic ones included); a branch ends without error, with
the state unchanged, whenever the directory identifier was already visited
or the depth exceeds the bound; and no directory is listed more than once
per search (the ghost listing log has pairwise-distinct identifiers, all
listed at depths within the bound). -/
theorem claim_C5 (t : Tool) (target : String) (md : Nat) :
    (∀ (fuel : Nat) (ino : String) (depth : Nat) (st : SearchSt),
      st.visited.contains ino = true → searchDir t target md fuel ino depth st = .ok st) ∧
    (∀ (fuel : Nat) (ino : String) (depth : Nat) (st : SearchSt),
      md < depth → searchDir t target md fuel ino depth st = .ok st) ∧
    (∀ (ino : String) (st' : SearchSt), searchRecursiveSt t ino target md = .ok st' →
      (st'.log.map Prod.fst).Nodup ∧ (∀ p ∈ st'.log, p.2 ≤ md)) := by
  refine ⟨fun fuel ino depth st h => searchDir_stop_visited fuel ino depth st h,
    fun fuel ino depth st h => searchDir_stop_depth fuel ino depth st h, ?_⟩
  intro ino st' h
  obtain ⟨_, tl, hlog, hp, hnodup⟩ := searchDir_inv t target md (md + 1) ino 0 _ st' h
  simp only [List.nil_append] at hlog
  subst hlog
  exact ⟨hnodup, fun p hp2 => (hp p hp2).1⟩

/-- A directory graph with a cycle: `600` lists `601`, which lists `600`
again (a child identifier equal to an ancestor's), plus one regular file. -/
def cycTool : Tool where
  fls := fun i => .ok (match i with
    | none => ["d/d 600-144-1:\ttop"]
    | some s =>
      if s = "600" then ["d/d 601-144-1:\tloop", "r/r 700-128-1:\tdata.txt"]
      else if s = "601" then ["d/d 600-144-1:\tback"]
      else [])
  icat := fun _ => .ok none

/-- Witness for claim C5 on the cyclic graph: the search returns a finite
state whose listing log is duplicate-free and within the depth bound. -/
theorem claim_C5_witness :
    searchRecursiveSt cycTool "600" "*" 5 =
      .ok ⟨["601", "600"], [("600", 0), ("601", 1)], [("r/r 700-128-1", "data.txt")]⟩ ∧
    ((([("600", 0), ("601", 1)] : List (String × Nat)).map Prod.fst).Nodup ∧
      (∀ p ∈ ([("600", 0), ("601", 1)] : List (String × Nat)), p.2 ≤ 5)) :=
  ⟨rfl, (claim_C5 cycTool "*" 5).2.2 "600"
    ⟨["601", "600"], [("600", 0), ("601", 1)], [("r/r 700-128-1", "data.txt")]⟩ rfl⟩

/-! ### Claim C2 -/

/-- A chain `/a/b1/b2/b3/b4` with the target file `name` inside `b4`, which
sits at depth 4 below the anchor directory `/a`. -/
def deepTool : Tool where
  fls := fun i => .ok (match i with
    | none => ["d/d 800-144-1:\ta"]
    | some s =>
      if s = "800" then ["d/d 801-144-1:\tb1"]
      else if s = "801" then ["d/d 802-144-1:\tb2"]
      else if s = "802" then ["d/d 803-144-1:\tb3"]
      else if s = "803" then ["d/d 804-144-1:\tb4"]
      else if s = "804" then ["r/r 900-128-1:\tname"]
      else [])
  icat := fun s => .ok (if s = "900-128-1" then some [7] else none)

/-- Claim C2 is false for adjacent wildcard segments: the directory portion
of `/a/*/*/name` holds two wildcard segments, but `count('/*/')` counts
non-overlapping occurrences, so the pattern is classified as a single
wildcard and searched with max depth 3, not 4 — the extraction returns
nothing although a depth-4 bounded search finds the file. -/
theorem claim_C2_counterexample :
    pyCountS (pyDirname "/a/*/*/name") wildSeg = 1 ∧
    extractPattern deepTool "/a/*/*/name" [] = ([], []) ∧
    searchRecursive deepTool "800" "name" 3 = .ok [] ∧
    searchRecursive deepTool "800" "name" 4 = .ok [("r/r 900-128-1", "name")] :=
  ⟨rfl, rfl, rfl, rfl⟩

/-- Claim C2 (amended): the directory portion is classified by the number of
NON-OVERLAPPING occurrences of `/*/` it contains: zero occurrences select
direct mode (a single listing of the literal directory, no recursion); one
occurrence selects the bounded recursive search with max depth 3 anchored at
the prefix before the first occurrence; two or more select the same search
with max depth 4.  Adjacent wildcard segments, as in `/a/*/*/name`, contain
only ONE non-overlapping occurrence and therefore get depth 3.  In bounded
mode no directory beyond the applicable depth bound is ever listed. -/
theorem claim_C2 (t : Tool) (pattern : String) :
    (pyCountS (pyDirname pattern) wildSeg = 0 →
      collectMatches t pattern =
        match findInodeByPath t (pyDirname pattern) with
        | .error e => .error e
        | .ok none => .ok []
        | .ok (some ino) => searchFilesInDirectory t ino (pyBasename pattern)) ∧
    (pyCountS (pyDirname pattern) wildSeg = 1 →
      collectMatches t pattern =
        match findInodeByPath t (beforeSub (pyDirname pattern) wildSeg) with
        | .error e => .error e
        | .ok none => .ok []
        | .ok (some ino) => searchRecursive t ino (pyBasename pattern) 3) ∧
    (2 ≤ pyCountS (pyDirname pattern) wildSeg →
      collectMatches t pattern =
        match findInodeByPath t (beforeSub (pyDirname pattern) wildSeg) with
        | .error e => .error e
        | .ok none => .ok []
        | .ok (some ino) => searchRecursive t ino (pyBasename pattern) 4) ∧
    (∀ (ino target : String) (md : Nat) (st' : SearchSt),
      searchRecursiveSt t ino target md = .ok st' → ∀ p ∈ st'.log, p.2 ≤ md) := by
  refine ⟨?_, ?_, ?_, ?_⟩
  · intro hwc
    unfold collectMatches
    simp only [hwc]
    rw [if_neg (by omega), if_neg (by omega)]
  · intro hwc
    unfold collectMatches
    simp only [hwc]
    rw [if_neg (by omega), if_pos trivial]
  · intro hwc
    unfold collectMatches
    rw [if_pos hwc]
  · intro ino target md st' h p hp
    obtain ⟨_, tl, hlog, hps, _⟩ := searchDir_inv t target md (md + 1) ino 0 _ st' h
    simp only [List.nil_append] at hlog
    subst hlog
    exact (hps p hp).1

/-- Witness for claim C2 at the adjacent-wildcard pattern: the single
non-overlapping occurrence selects the depth-3 bounded search anchored at
`/a`. -/
theorem claim_C2_witness :
    collectMatches deepTool "/a/*/*/name" =
      match findInodeByPath deepTool (beforeSub (pyDirname "/a/*/*/name") wildSeg) with
      | .error e => .error e
      | .ok none => .ok []
      | .ok (some ino) => searchRecursive deepTool ino (pyBasename "/a/*/*/name") 3 :=
  (claim_C2 deepTool "/a/*/*/name").2.1 (by rfl)

/-! ### Decimal rendering is injective -/

/-- `digitChar` is a left inverse of `fun d => d + 48` below 10. -/
lemma digitChar_sub {d : Nat} (h : d < 10) : (Nat.digitChar d).toNat - 48 = d := by
  interval_cases d <;> rfl

/-- `decVal` recovers the rendered number. -/
lemma decVal_decRev : ∀ (f n : Nat), n < f → decVal (decRev f n) = n := by
  intro f
  induction f with
  | zero => intro n h; exact absurd h (Nat.not_lt_zero n)
  | succ f ih =>
    intro n h
    unfold decRev
    by_cases h10 : n < 10
    · rw [if_pos h10]
      simp [decVal, digitChar_sub h10]
    · rw [if_neg h10]
      have hdiv : n / 10 < f := by
        have : n / 10 < n := Nat.div_lt_self (by omega) (by omega)
        omega
      rw [decVal, ih (n / 10) hdiv, digitChar_sub (Nat.mod_lt n (by omega))]
      omega

/-- The decimal rendering of distinct numbers differs. -/
lemma decReprS_inj {m n : Nat} (h : decReprS m = decReprS n) : m = n := by
  have hd : (decRev (m + 1) m).reverse = (decRev (n + 1) n).reverse := congrArg String.data h
  have hr : decRev (m + 1) m = decRev (n + 1) n := List.reverse_injective hd
  have h1 := decVal_decRev (m + 1) m (Nat.lt_succ_self m)
  have h2 := decVal_decRev (n + 1) n (Nat.lt_succ_self n)
  rw [← h1, ← h2, hr]

/-- String concatenation acts on the underlying character lists. -/
lemma string_data_append (a b : String) : (a ++ b).data = a.data ++ b.data := rfl

/-- For a fixed base and extension, the suffixed collision names are
pairwise distinct. -/
lemma mkName_inj (base ex : String) {j k : Nat} (h : mkName base ex j = mkName base ex k) :
    j = k := by
  have hd := congrArg String.data h
  simp only [mkName, string_data_append] at hd
  have h1 := List.append_cancel_right hd
  have h2 := List.append_cancel_left h1
  exact decReprS_inj (String.ext h2)

/-! ### The collision loop always finds a fresh name -/

/-- Membership formulation of the `os.path.exists` check. -/
lemma pyExistsMap_iff {d : FileMap} {nm : String} :
    pyExistsMap d nm = true ↔ nm ∈ d.map Prod.fst := by
  unfold pyExistsMap
  rw [List.any_eq_true]
  constructor
  · rintro ⟨e, he, heq⟩
    exact List.mem_map.mpr ⟨e, he, (beq_iff_eq.mp heq).symm⟩
  · intro hm
    obtain ⟨e, he, hx⟩ := List.mem_map.mp hm
    exact ⟨e, he, beq_iff_eq.mpr hx.symm⟩

/-- Pigeonhole: among the first `d.length + 1` candidate suffixes some name
is free. -/
lemma exists_free (d : FileMap) (base ex : String) :
    ∃ j : Nat, j ≤ d.length ∧ pyExistsMap d (mkName base ex (1 + j)) = false := by
  by_contra hcon
  push_neg at hcon
  have hmem : ∀ j : Fin (d.length + 1), mkName base ex (1 + (j : Nat)) ∈ d.map Prod.fst := by
    intro j
    have hne := hcon (j : Nat) (Nat.le_of_lt_succ j.isLt)
    refine pyExistsMap_iff.mp ?_
    revert hne
    cases pyExistsMap d (mkName base ex (1 + (j : Nat))) <;> simp
  have hinj : Function.Injective (fun j : Fin (d.length + 1) => mkName base ex (1 + (j : Nat))) := by
    intro a b hab
    have := mkName_inj base ex hab
    exact Fin.ext (by omega)
  have hcard : ((Finset.univ : Finset (Fin (d.length + 1))).image
      (fun j : Fin (d.length + 1) => mkName base ex (1 + (j : Nat)))).card = d.length + 1 := by
    rw [Finset.card_image_of_injective _ hinj, Finset.card_univ, Fintype.card_fin]
  have hsub : ((Finset.univ : Finset (Fin (d.length + 1))).image
      (fun j : Fin (d.length + 1) => mkName base ex (1 + (j : Nat)))) ⊆
      (d.map Prod.fst).toFinset := by
    intro x hx
    obtain ⟨j, _, rfl⟩ := Finset.mem_image.mp hx
    exact List.mem_toFinset.mpr (hmem j)
  have hle := Finset.card_le_card hsub
  have hlen : (d.map Prod.fst).toFinset.card ≤ d.length := by
    calc (d.map Prod.fst).toFinset.card ≤ (d.map Prod.fst).length := List.toFinset_card_le _
    _ = d.length := List.length_map _ _
  omega

/-- The collision loop returns the name with the smallest free counter at or
after the start counter, provided a free counter exists within fuel. -/
lemma findFree_spec (d : FileMap) (base ex : String) :
    ∀ (f k0 : Nat), (∃ j, j ≤ f ∧ pyExistsMap d (mkName base ex (k0 + j)) = false) →
    ∃ j, pyExistsMap d (mkName base ex (k0 + j)) = false ∧
      (∀ i, i < j → pyExistsMap d (mkName base ex (k0 + i)) = true) ∧
      findFree d base ex f k0 = mkName base ex (k0 + j) := by
  intro f
  induction f with
  | zero =>
    intro k0 hex
    obtain ⟨j, hj, hfree⟩ := hex
    have hj0 : j = 0 := Nat.le_zero.mp hj
    subst hj0
    exact ⟨0, hfree, fun i hi => absurd hi (Nat.not_lt_zero i), by unfold findFree; rfl⟩
  | succ f ih =>
    intro k0 hex
    by_cases hk : pyExistsMap d (mkName base ex k0) = true
    · have hex' : ∃ j, j ≤ f ∧ pyExistsMap d (mkName base ex (k0 + 1 + j)) = false := by
        obtain ⟨j, hj, hfree⟩ := hex
        cases j with
        | zero => rw [Nat.add_zero] at hfree; rw [hfree] at hk; cases hk
        | succ j =>
          exact ⟨j, by omega, by rw [show k0 + 1 + j = k0 + (j + 1) by omega]; exact hfree⟩
      obtain ⟨j, hfree, hmin, heq⟩ := ih (k0 + 1) hex'
      refine ⟨j + 1, by rw [show k0 + (j + 1) = k0 + 1 + j by omega]; exact hfree, ?_, ?_⟩
      · intro i hi
        cases i with
        | zero => simpa using hk
        | succ i =>
          rw [show k0 + (i + 1) = k0 + 1 + i by omega]
          exact hmin i (by omega)
      · unfold findFree
        rw [if_pos hk, heq]
        congr 1
        omega
    · have hfree : pyExistsMap d (mkName base ex k0) = false := by
        revert hk
        cases pyExistsMap d (mkName base ex k0) <;> simp
      refine ⟨0, by simpa using hfree, fun i hi => absurd hi (Nat.not_lt_zero i), ?_⟩
      unfold findFree
      rw [if_neg hk]
      simp

/-- The destination chosen by the extractor is never an existing file. -/
lemma extractDest_fresh (d : FileMap) (fname : String) :
    pyExistsMap d (extractDest d fname) = false := by
  unfold extractDest
  by_cases hs : pyExistsMap d (sanitizeName fname) = true
  · rw [if_pos hs]
    obtain ⟨j, hj, hfree⟩ :=
      exists_free d (pySplitext (sanitizeName fname)).1 (pySplitext (sanitizeName fname)).2
    obtain ⟨j2, hfree2, _, heq⟩ := findFree_spec d (pySplitext (sanitizeName fname)).1
      (pySplitext (sanitizeName fname)).2 (d.length + 1) 1 ⟨j, by omega, hfree⟩
    rw [heq]
    exact hfree2
  · rw [if_neg hs]
    revert hs
    cases pyExistsMap d (sanitizeName fname) <;> simp

/-! ### Lookup lemmas for the output directory -/

/-- A successful lookup implies the existence check succeeds. -/
lemma lookup_exists {d : FileMap} {k : String} {v : List Nat}
    (h : d.lookup k = some v) : pyExistsMap d k = true := by
  induction d with
  | nil => cases h
  | cons e rest ih =>
    rw [List.lookup] at h
    by_cases hke : (k == e.1) = true
    · refine pyExistsMap_iff.mpr ?_
      exact List.mem_map.mpr ⟨e, List.mem_cons_self _ _, (beq_iff_eq.mp hke).symm⟩
    · rw [Bool.of_not_eq_true hke] at h
      have := ih h
      refine pyExistsMap_iff.mpr ?_
      have hmem := pyExistsMap_iff.mp this
      rw [List.map_cons]
      exact List.mem_cons_of_mem _ hmem

/-- Writing a fresh name preserves every existing binding. -/
lemma lookup_insert_preserved {d : FileMap} {nm : String} {bs : List Nat}
    (hfresh : pyExistsMap d nm = false) {k : String} {v : List Nat}
    (h : d.lookup k = some v) : (((nm, bs) :: d) : FileMap).lookup k = some v := by
  have hk : pyExistsMap d k = true := lookup_exists h
  have hne : k ≠ nm := by
    intro he
    rw [he, hfresh] at hk
    cases hk
  rw [List.lookup, show (k == nm) = false from beq_eq_false_iff_ne.mpr hne]
  exact h

/-- Looking up the just-written name. -/
lemma lookup_insert_self {d : FileMap} {nm : String} {bs : List Nat} :
    (((nm, bs) :: d) : FileMap).lookup nm = some bs := by
  rw [List.lookup, show (nm == nm) = true from beq_self_eq_true nm]

/-- A name failing the existence check has no binding. -/
lemma lookup_none_of_not_exists {d : FileMap} {k : String}
    (h : pyExistsMap d k = false) : d.lookup k = none := by
  cases hl : d.lookup k with
  | none => rfl
  | some v => rw [lookup_exists hl] at h; cases h

/-! ### Soundness of the extraction pipeline -/

/-- An extraction step is sound relative to a starting directory: bindings
are preserved and each reported path is bound to non-empty content. -/
def Sound (d : FileMap) (res : FileMap × List String) : Prop :=
  (∀ k v, d.lookup k = some v → res.1.lookup k = some v) ∧
  (∀ p ∈ res.2, ∃ bs, res.1.lookup p = some bs ∧ 0 < bs.length)

lemma sound_id (d : FileMap) : Sound d (d, []) :=
  ⟨fun _ _ hv => hv, fun p hp => absurd hp (List.not_mem_nil p)⟩

/-- Soundness composes along the `(state, acc ++ acc)` shape shared by every
loop of the engine. -/
lemma sound_comp {d : FileMap} {r1 r2 : FileMap × List String}
    (h1 : Sound d r1) (h2 : Sound r1.1 r2) : Sound d (r2.1, r1.2 ++ r2.2) := by
  refine ⟨fun k v hv => h2.1 k v (h1.1 k v hv), ?_⟩
  intro p hp
  rcases List.mem_append.mp hp with h | h
  · obtain ⟨bs, hbs, hlen⟩ := h1.2 p h
    exact ⟨bs, h2.1 p bs hbs, hlen⟩
  · exact h2.2 p h

/-- A successful single-file extraction preserves bindings and reports only
paths bound to non-empty content. -/
lemma extractFile_preserves {t : Tool} {d : FileMap} {ino fname : String}
    {d' : FileMap} {r : Option String}
    (h : extractFile t d ino fname = .ok (d', r)) :
    (∀ k v, d.lookup k = some v → d'.lookup k = some v) ∧
    (∀ p, r = some p → ∃ bs, d'.lookup p = some bs ∧ 0 < bs.length) := by
  unfold extractFile at h
  cases hic : t.icat ino with
  | error e => rw [hic] at h; cases h
  | ok ob =>
    rw [hic] at h
    cases ob with
    | none =>
      cases h
      exact ⟨fun k v hv => hv, fun p hp => by cases hp⟩
    | some bs =>
      cases h
      refine ⟨fun k v hv => lookup_insert_preserved (extractDest_fresh d fname) hv, ?_⟩
      intro p hp
      by_cases hlen : 0 < bs.length
      · rw [if_pos hlen] at hp
        cases hp
        exact ⟨bs, lookup_insert_self, hlen⟩
      · rw [if_neg hlen] at hp
        cases hp

/-- The extraction loop over collected matches is sound. -/
lemma sound_extractMatches (t : Tool) :
    ∀ (ms : List (String × String)) (d : FileMap), Sound d (extractMatches t ms d) := by
  intro ms
  induction ms with
  | nil => intro d; exact sound_id d
  | cons m rest ih =>
    intro d
    obtain ⟨info, name⟩ := m
    unfold extractMatches
    cases hino : inodeOfInfo info with
    | none => exact ih d
    | some ino =>
      dsimp only
      cases hext : extractFile t d ino name with
      | error e => exact sound_id d
      | ok pr =>
        obtain ⟨d1, ro⟩ := pr
        have hpres := extractFile_preserves hext
        cases ro with
        | none => exact ⟨fun k v hv => (ih d1).1 k v (hpres.1 k v hv), (ih d1).2⟩
        | some p =>
          refine ⟨fun k v hv => (ih d1).1 k v (hpres.1 k v hv), ?_⟩
          intro q hq
          rcases List.mem_cons.mp hq with rfl | hq'
          · obtain ⟨bs, hbs, hlen⟩ := hpres.2 q rfl
            exact ⟨bs, (ih d1).1 q bs hbs, hlen⟩
          · exact (ih d1).2 q hq'

lemma sound_runMatches (t : Tool) (msE : Except Unit (List (String × String)))
    (d : FileMap) : Sound d (runMatches t msE d) := by
  cases msE with
  | error e => exact sound_id d
  | ok ms => exact sound_extractMatches t ms d

lemma sound_extractPattern (t : Tool) (pattern : String) (d : FileMap) :
    Sound d (extractPattern t pattern d) :=
  sound_runMatches t (collectMatches t pattern) d

lemma sound_userLoop (t : Tool) :
    ∀ (users : List String) (p : String) (d : FileMap), Sound d (userLoop t users p d) := by
  intro users
  induction users with
  | nil => intro p d; exact sound_id d
  | cons u us ih =>
    intro p d
    unfold userLoop
    exact sound_comp (sound_extractPattern t _ d) (ih p _)

lemma sound_patternStep (t : Tool) (users : List String) (p : String) (d : FileMap) :
    Sound d (patternStep t users p d) := by
  unfold patternStep
  by_cases hc : pyInS usersWild p = true ∧ users ≠ []
  · rw [if_pos hc]
    exact sound_userLoop t users p d
  · rw [if_neg hc]
    exact sound_extractPattern t p d

lemma sound_extractLoop (t : Tool) (users : List String) :
    ∀ (patterns : List String) (d : FileMap), Sound d (extractLoop t users patterns d) := by
  intro patterns
  induction patterns with
  | nil => intro d; exact sound_id d
  | cons p rest ih =>
    intro d
    unfold extractLoop
    exact sound_comp (sound_patternStep t users p d) (ih _)

/-! ### Claim C6 -/

/-- Claim C6: `extract_files` is total in this embedding — whatever the
external tool returns or however it fails (`t` is an arbitrary oracle whose
calls may error), the call produces a final directory state and a
(possibly empty) path list, and every returned path is genuinely a
successfully extracted destination: it is bound in the final directory
state to non-empty content. -/
theorem claim_C6 (t : Tool) (patterns : List String) (d : FileMap) :
    ∀ p ∈ (extractFiles t patterns d).2,
      ∃ bs, ((extractFiles t patterns d).1).lookup p = some bs ∧ 0 < bs.length := by
  unfold extractFiles
  by_cases hneed : patterns.any (fun p => pyInS usersWild p) = true
  · rw [if_pos hneed]
    by_cases hu : findUserFolders t = []
    · rw [if_pos hu]
      exact (sound_id d).2
    · rw [if_neg hu]
      exact (sound_extractLoop t (findUserFolders t) patterns d).2
  · rw [if_neg hneed]
    exact (sound_extractLoop t [] patterns d).2

/-! ### Claim C7 -/

/-- Claim C7: extraction never overwrites an existing file.  On every
successful single-file extraction the new directory state preserves every
pre-existing binding (the only touched name, the chosen destination, was
free beforehand), and when the sanitized candidate name collides with an
existing file the destination is the suffixed name with the smallest
counter `n ≥ 1` whose name is free, every smaller counter naming an
existing file. -/
theorem claim_C7 (t : Tool) (d : FileMap) (ino fname : String)
    (d' : FileMap) (r : Option String)
    (h : extractFile t d ino fname = .ok (d', r)) :
    (∀ k v, d.lookup k = some v → d'.lookup k = some v) ∧
    (∀ k, k ≠ extractDest d fname → d'.lookup k = d.lookup k) ∧
    (pyExistsMap d (sanitizeName fname) = true →
      ∃ n, 1 ≤ n ∧
        extractDest d fname =
          mkName (pySplitext (sanitizeName fname)).1 (pySplitext (sanitizeName fname)).2 n ∧
        pyExistsMap d
          (mkName (pySplitext (sanitizeName fname)).1 (pySplitext (sanitizeName fname)).2 n)
          = false ∧
        (∀ i, 1 ≤ i → i < n →
          pyExistsMap d
            (mkName (pySplitext (sanitizeName fname)).1 (pySplitext (sanitizeName fname)).2 i)
            = true)) := by
  have hframe : ∀ k, k ≠ extractDest d fname → d'.lookup k = d.lookup k := by
    intro k hk
    unfold extractFile at h
    cases hic : t.icat ino with
    | error e => rw [hic] at h; cases h
    | ok ob =>
      rw [hic] at h
      cases ob with
      | none => cases h; rfl
      | some bs =>
        cases h
        rw [List.lookup, show (k == extractDest d fname) = false from beq_eq_false_iff_ne.mpr hk]
  refine ⟨(extractFile_preserves h).1, hframe, ?_⟩
  intro hs
  obtain ⟨j, hj, hfree⟩ :=
    exists_free d (pySplitext (sanitizeName fname)).1 (pySplitext (sanitizeName fname)).2
  obtain ⟨j2, hfree2, hmin, heq⟩ := findFree_spec d (pySplitext (sanitizeName fname)).1
    (pySplitext (sanitizeName fname)).2 (d.length + 1) 1 ⟨j, by omega, hfree⟩
  refine ⟨1 + j2, by omega, ?_, hfree2, ?_⟩
  · unfold extractDest
    rw [if_pos hs]
    exact heq
  · intro i h1 hi
    have := hmin (i - 1) (by omega)
    rw [show 1 + (i - 1) = i from by omega] at this
    exact this

/-! ### Claim C8 -/

/-- Claim C8: a successful single-file extraction returns the destination
path if and only if, after the extractor ran, the destination is bound to
content of non-zero size; a zero-byte or missing result yields `none`
rather than an error; and no `none` result ever contributes a path to the
aggregate list of the match-extraction loop. -/
theorem claim_C8 (t : Tool) (d : FileMap) (ino fname : String)
    (d' : FileMap) (r : Option String)
    (h : extractFile t d ino fname = .ok (d', r)) :
    (r = some (extractDest d fname) ↔
      ∃ bs, d'.lookup (extractDest d fname) = some bs ∧ 0 < bs.length) ∧
    (r = none ∨ r = some (extractDest d fname)) ∧
    ((d'.lookup (extractDest d fname) = none ∨
      d'.lookup (extractDest d fname) = some []) → r = none) ∧
    (∀ (ms : List (String × String)) (d0 : FileMap), ∀ p ∈ (extractMatches t ms d0).2,
      ∃ bs, ((extractMatches t ms d0).1).lookup p = some bs ∧ 0 < bs.length) := by
  have hfresh := extractDest_fresh d fname
  unfold extractFile at h
  cases hic : t.icat ino with
  | error e => rw [hic] at h; cases h
  | ok ob =>
    rw [hic] at h
    cases ob with
    | none =>
      cases h
      refine ⟨?_, Or.inl rfl, fun _ => rfl, fun ms d0 => (sound_extractMatches t ms d0).2⟩
      constructor
      · intro hr; cases hr
      · intro hex
        obtain ⟨bs, hbs, _⟩ := hex
        rw [lookup_none_of_not_exists hfresh] at hbs
        cases hbs
    | some bs =>
      cases h
      by_cases hlen : 0 < bs.length
      · rw [if_pos hlen]
        refine ⟨?_, Or.inr rfl, ?_, fun ms d0 => (sound_extractMatches t ms d0).2⟩
        · exact ⟨fun _ => ⟨bs, lookup_insert_self, hlen⟩, fun _ => rfl⟩
        · intro hcase
          rcases hcase with hn | hz
          · rw [lookup_insert_self] at hn; cases hn
          · rw [lookup_insert_self] at hz
            cases hz
            simp at hlen
      · rw [if_neg hlen]
        refine ⟨?_, Or.inl rfl, fun _ => rfl, fun ms d0 => (sound_extractMatches t ms d0).2⟩
        constructor
        · intro hr; cases hr
        · intro hex
          obtain ⟨bs2, hbs2, hlen2⟩ := hex
          rw [lookup_insert_self] at hbs2
          cases hbs2
          exact absurd hlen2 hlen

/-! ### Claim C9 -/

/-- Claim C9: failed extraction is not atomic.  When the extractor produces
a zero-byte destination file, single-file extraction reports `none` but the
zero-byte file stays in the output directory, and it participates in
collision-suffix computation for later extractions of the same name: the
next chosen destination differs from it. -/
theorem claim_C9 (t : Tool) (d : FileMap) (ino fname : String)
    (hic : t.icat ino = .ok (some [])) :
    extractFile t d ino fname = .ok ((extractDest d fname, []) :: d, none) ∧
    pyExistsMap ((extractDest d fname, []) :: d) (extractDest d fname) = true ∧
    extractDest ((extractDest d fname, []) :: d) fname ≠ extractDest d fname := by
  have hself : pyExistsMap ((extractDest d fname, []) :: d) (extractDest d fname) = true := by
    unfold pyExistsMap
    rw [List.any_cons]
    simp
  refine ⟨?_, hself, ?_⟩
  · unfold extractFile
    rw [hic]
    rfl
  · intro heq
    have := extractDest_fresh ((extractDest d fname, []) :: d) fname
    rw [heq, hself] at this
    cases this

/-! ### Claim C1 -/

/-- An image with a `Users` directory holding no user profiles, and a
`Windows/Prefetch` directory holding one prefetch file. -/
def noUsersTool : Tool where
  fls := fun i => .ok (match i with
    | none => ["d/d 100-144-1:\tUsers", "d/d 200-144-2:\tWindows"]
    | some s =>
      if s = "100" then []
      else if s = "200" then ["d/d 300-144-3:\tPrefetch"]
      else if s = "300" then ["r/r 400-128-1:\trun.pf"]
      else [])
  icat := fun s => .ok (if s = "400-128-1" then some [1, 2, 3] else none)

/-- Claim C1 is false: when the user-profile placeholder expands to zero
users, `extract_files` returns the empty list at once, aborting every
pattern — the placeholder-free `/Windows/Prefetch/*.pf` pattern, which on
its own extracts a file, contributes nothing. -/
theorem claim_C1_counterexample :
    extractFiles noUsersTool ["/Users/*/Recent/*.lnk", "/Windows/Prefetch/*.pf"] [] = ([], []) ∧
    extractFiles noUsersTool ["/Windows/Prefetch/*.pf"] [] =
      ([("run.pf", [1, 2, 3])], ["run.pf"]) :=
  ⟨rfl, rfl⟩

/-- Claim C1 (amended): if some pattern contains the any-user-profile
placeholder and zero users are discovered, `extract_files` aborts ALL
patterns and returns the empty list, including patterns without the
placeholder.  Otherwise no cross-pattern abort exists: when no pattern
contains the placeholder the call is exactly the per-pattern loop, and the
loop always processes the remaining patterns from whatever state one
pattern — successful or not — left behind, concatenating contributions. -/
theorem claim_C1 (t : Tool) (patterns : List String) (d : FileMap) :
    (patterns.any (fun p => pyInS usersWild p) = true → findUserFolders t = [] →
      extractFiles t patterns d = (d, [])) ∧
    (patterns.any (fun p => pyInS usersWild p) = false →
      extractFiles t patterns d = extractLoop t [] patterns d) ∧
    (∀ (users : List String) (p : String) (rest : List String) (d0 : FileMap),
      extractLoop t users (p :: rest) d0 =
        ((extractLoop t users rest (patternStep t users p d0).1).1,
         (patternStep t users p d0).2 ++
           (extractLoop t users rest (patternStep t users p d0).1).2)) := by
  refine ⟨?_, ?_, ?_⟩
  · intro hany husers
    unfold extractFiles
    rw [if_pos hany]
    dsimp only
    rw [husers, if_pos rfl]
  · intro hfalse
    unfold extractFiles
    rw [if_neg (by simp [hfalse])]
  · intro users p rest d0
    rfl

/-- Witness for claim C1: the concrete no-users image aborts a pattern list
containing the placeholder. -/
theorem claim_C1_witness :
    extractFiles noUsersTool ["/Users/*/Recent/*.lnk", "/Windows/Prefetch/*.pf"] [] =
      (([] : FileMap), ([] : List String)) :=
  (claim_C1 noUsersTool ["/Users/*/Recent/*.lnk", "/Windows/Prefetch/*.pf"] []).1 rfl rfl

/-- Witness for claim C6 at a concrete image: the single returned path is
bound to non-empty content in the final directory state. -/
theorem claim_C6_witness :
    ∃ bs, ((extractFiles noUsersTool ["/Windows/Prefetch/*.pf"] []).1).lookup "run.pf" =
      some bs ∧ 0 < bs.length :=
  claim_C6 noUsersTool ["/Windows/Prefetch/*.pf"] [] "run.pf" (by decide)

/-- Witness for claim C7 at a concrete collision: extracting `run.pf` into a
directory already holding `run.pf` preserves the old binding and lands on
the suffix-1 name. -/
theorem claim_C7_witness :
    (∀ k v, (([("run.pf", [0])]) : FileMap).lookup k = some v →
      (([("run_1.pf", [1, 2, 3]), ("run.pf", [0])]) : FileMap).lookup k = some v) ∧
    (∀ k, k ≠ extractDest [("run.pf", [0])] "run.pf" →
      (([("run_1.pf", [1, 2, 3]), ("run.pf", [0])]) : FileMap).lookup k =
        (([("run.pf", [0])]) : FileMap).lookup k) ∧
    (pyExistsMap [("run.pf", [0])] (sanitizeName "run.pf") = true →
      ∃ n, 1 ≤ n ∧
        extractDest [("run.pf", [0])] "run.pf" =
          mkName (pySplitext (sanitizeName "run.pf")).1 (pySplitext (sanitizeName "run.pf")).2
            n ∧
        pyExistsMap [("run.pf", [0])]
          (mkName (pySplitext (sanitizeName "run.pf")).1 (pySplitext (sanitizeName "run.pf")).2
            n) = false ∧
        (∀ i, 1 ≤ i → i < n →
          pyExistsMap [("run.pf", [0])]
            (mkName (pySplitext (sanitizeName "run.pf")).1
              (pySplitext (sanitizeName "run.pf")).2 i) = true)) :=
  claim_C7 noUsersTool [("run.pf", [0])] "400-128-1" "run.pf"
    [("run_1.pf", [1, 2, 3]), ("run.pf", [0])] (some "run_1.pf") rfl

/-- A tool whose extractor always produces a zero-byte file. -/
def zeroTool : Tool where
  fls := fun _ => .ok []
  icat := fun _ => .ok (some [])

/-- Witness for claim C8 at a concrete zero-byte extraction: the result is
`none`, matching the zero-size destination. -/
theorem claim_C8_witness :
    ((none : Option String) = some (extractDest ([] : FileMap) "empty.dat") ↔
      ∃ bs, (([("empty.dat", [])]) : FileMap).lookup (extractDest ([] : FileMap) "empty.dat") =
        some bs ∧ 0 < bs.length) ∧
    ((none : Option String) = none ∨
      (none : Option String) = some (extractDest ([] : FileMap) "empty.dat")) ∧
    (((([("empty.dat", [])]) : FileMap).lookup (extractDest ([] : FileMap) "empty.dat") = none ∨
      (([("empty.dat", [])]) : FileMap).lookup (extractDest ([] : FileMap) "empty.dat") =
        some []) → (none : Option String) = none) ∧
    (∀ (ms : List (String × String)) (d0 : FileMap),
      ∀ p ∈ (extractMatches zeroTool ms d0).2,
        ∃ bs, ((extractMatches zeroTool ms d0).1).lookup p = some bs ∧ 0 < bs.length) :=
  claim_C8 zeroTool [] "1-1-1" "empty.dat" [("empty.dat", [])] none rfl

/-- Witness for claim C9 at a concrete zero-byte extraction: the zero-byte
file stays behind and shifts the next destination. -/
theorem claim_C9_witness :
    extractFile zeroTool [] "1-1-1" "empty.dat" =
      .ok ((extractDest ([] : FileMap) "empty.dat", []) :: [], none) ∧
    pyExistsMap ((extractDest ([] : FileMap) "empty.dat", []) :: [])
      (extractDest ([] : FileMap) "empty.dat") = true ∧
    extractDest ((extractDest ([] : FileMap) "empty.dat", []) :: [])
      "empty.dat" ≠ extractDest ([] : FileMap) "empty.dat" :=
  claim_C9 zeroTool [] "1-1-1" "empty.dat" rfl

end Tsk
